import Mathlib

/-!
Shallow embedding of the subtitle-selection core of `src/convert.py`
(migaku-py-converter).

Strings are modelled as `List Char`; Python's case-lowering is modelled
per character by `Char.toLower`.  The ffprobe stream dictionaries are
modelled by the structure `SubStream`: only the keys the program reads
are represented (`index`, `codec_name`, `disposition.forced`,
`disposition.default`, `tags.language`, `tags.LANGUAGE`, `tags.title`);
an absent optional key is `none` and an absent disposition entry is `0`,
matching the `dict.get` defaults used by the code.  The probing of the
container (`ffprobe_streams`) and the filesystem are external
collaborators; the selection function receives the descriptor list, and
the filesystem fallback receives an existence predicate.
-/

set_option maxHeartbeats 1000000
set_option maxRecDepth 8192

abbrev Str : Type := List Char

/-- Tags dictionary of one stream.  `none` models an absent key; `some []`
models a key present with the empty string. -/
structure Tags where
  language : Option Str
  LANGUAGE : Option Str
  title : Option Str
deriving DecidableEq

/-- Disposition dictionary of one stream.  Absent keys default to `0`
(`disp.get("forced", 0)`), so the fields hold the resolved integers. -/
structure Disposition where
  forced : Int
  default : Int
deriving DecidableEq

/-- One ffprobe subtitle stream descriptor, restricted to the keys the
program reads.  `index` models `int(s.get("index", 0))`. -/
structure SubStream where
  index : Int
  codec_name : Option Str
  disposition : Disposition
  tags : Tags
deriving DecidableEq

/-- Python `a or dflt` for an optional string `a`: `None` and the empty
string are falsy. -/
def pyStrOr (a : Option Str) (dflt : Str) : Str :=
  match a with
  | none => dflt
  | some s => if s.isEmpty then dflt else s

/-- Truthiness of a tags dictionary (`if not tags`): the modelled dict is
empty iff all three represented keys are absent. -/
def tagsTruthy (t : Tags) : Bool :=
  t.language.isSome || t.LANGUAGE.isSome || t.title.isSome

/-- Python substring test `pat in s`, scanning left to right. -/
def containsSub (pat : Str) : Str → Bool
  | [] => pat.isEmpty
  | c :: rest => pat.isPrefixOf (c :: rest) || containsSub pat rest

/-- Embedding of `is_japanese` (src/convert.py lines 65-69). -/
def is_japanese (tags : Tags) : Bool :=
  if !tagsTruthy tags then false
  else
    let lang := (pyStrOr tags.language (pyStrOr tags.LANGUAGE [])).map Char.toLower
    lang == "jpn".toList || lang == "ja".toList

/-- Embedding of `title_contains_forced` (src/convert.py lines 72-78). -/
def title_contains_forced (title : Option Str) : Bool :=
  match title with
  | none => false
  | some t₀ =>
    if t₀.isEmpty then false
    else
      let t := t₀.map Char.toLower
      ["forced".toList, "signs".toList, "songs & signs".toList,
        "songs/signs".toList].any (fun k => containsSub k t)

/-- Embedding of `title_prefers_full` (src/convert.py lines 81-94). -/
def title_prefers_full (title : Option Str) : Int :=
  match title with
  | none => 0
  | some t₀ =>
    if t₀.isEmpty then 0
    else
      let t := t₀.map Char.toLower
      let score : Int := 0
      let score := if containsSub "full".toList t then score + 3 else score
      let score :=
        if containsSub "sdh".toList t || containsSub "hearing".toList t then
          score + 1
        else score
      let score :=
        if containsSub "forced".toList t || containsSub "sign".toList t then
          score - 5
        else score
      score

/-- Embedding of the set `TEXT_SUB_CODECS` (src/convert.py lines 11-17). -/
def TEXT_SUB_CODECS : List Str :=
  ["subrip".toList, "ass".toList, "ssa".toList, "mov_text".toList,
    "webvtt".toList]

/-- Embedding of the set `BITMAP_SUB_CODECS` (src/convert.py lines 19-22). -/
def BITMAP_SUB_CODECS : List Str :=
  ["hdmv_pgs_subtitle".toList, "dvd_subtitle".toList]

/-- Lower-cased codec name of a stream: `(s.get("codec_name") or "").lower()`. -/
def codecLower (s : SubStream) : Str :=
  (pyStrOr s.codec_name []).map Char.toLower

/-- Embedding of the local `score_stream` (src/convert.py lines 130-141). -/
def score_stream (s : SubStream) : Int × Int × Int :=
  let forced : Int := s.disposition.forced
  let dflt : Int := s.disposition.default
  let title := s.tags.title
  let base : Int := 100
  let base := base + title_prefers_full title
  let base := base + (if dflt ≠ 0 then (5 : Int) else 0)
  let base := base + (if forced ≠ 0 then (0 : Int) else 10)
  (base, -s.index, -forced)

/-- Python's lexicographic `<` on integer 3-tuples. -/
def tupLt (a b : Int × Int × Int) : Bool :=
  decide (a.1 < b.1) ||
    (decide (a.1 = b.1) &&
      (decide (a.2.1 < b.2.1) ||
        (decide (a.2.1 = b.2.1) && decide (a.2.2 < b.2.2))))

/-- Stable descending insertion: `x` is placed before the first already
sorted element whose score is not larger, so elements with equal scores
keep their original relative order, exactly as Python's stable
`sorted(..., key=score_stream, reverse=True)`. -/
def insertDesc (x : SubStream) : List SubStream → List SubStream
  | [] => [x]
  | y :: ys =>
    if tupLt (score_stream x) (score_stream y) then y :: insertDesc x ys
    else x :: y :: ys

/-- Stable descending sort by `score_stream`, extensionally equal to
`sorted(pool, key=score_stream, reverse=True)` (src/convert.py line 152). -/
def sortDesc : List SubStream → List SubStream
  | [] => []
  | x :: xs => insertDesc x (sortDesc xs)

/-- First element of `x :: xs` attaining the maximal score (earlier
elements win ties): the head of the stable descending sort. -/
def firstMax (x : SubStream) : List SubStream → SubStream
  | [] => x
  | y :: ys =>
    let m := firstMax y ys
    if tupLt (score_stream x) (score_stream m) then m else x

/-- Local `jpn_streams` of `pick_best_jpn_text_sub` (src/convert.py line 107). -/
def jpn_streams (streams : List SubStream) : List SubStream :=
  streams.filter (fun s => is_japanese s.tags)

/-- Local `text_jpn` of `pick_best_jpn_text_sub` (src/convert.py lines 112-117). -/
def text_jpn (streams : List SubStream) : List SubStream :=
  (jpn_streams streams).filter (fun s => TEXT_SUB_CODECS.contains (codecLower s))

/-- Local `bitmap_jpn` of `pick_best_jpn_text_sub` (src/convert.py lines
112-119); the `elif` makes membership in `TEXT_SUB_CODECS` exclude a
stream from this group. -/
def bitmap_jpn (streams : List SubStream) : List SubStream :=
  (jpn_streams streams).filter (fun s =>
    !TEXT_SUB_CODECS.contains (codecLower s) &&
      BITMAP_SUB_CODECS.contains (codecLower s))

/-- Local `non_forced_text` of `pick_best_jpn_text_sub` (src/convert.py
lines 144-149). -/
def non_forced_text (streams : List SubStream) : List SubStream :=
  (text_jpn streams).filter (fun s =>
    decide (s.disposition.forced = 0) && !title_contains_forced s.tags.title)

/-- Local `pool` of `pick_best_jpn_text_sub` (src/convert.py line 150):
the non-forced subset when non-empty, otherwise all text candidates. -/
def pool (streams : List SubStream) : List SubStream :=
  if (non_forced_text streams).isEmpty then text_jpn streams
  else non_forced_text streams

/-- Embedding of `pick_best_jpn_text_sub` (src/convert.py lines 97-153),
with the ffprobe call abstracted into the `streams` argument.  The
`sorted(...)[0]` subscript is total because the pool is non-empty on the
branch that reaches it; the inline proof records exactly that
reachability fact. -/
def pick_best_jpn_text_sub (streams : List SubStream) : Option Int × String :=
  if streams.isEmpty then (none, "No subtitle streams found")
  else if (jpn_streams streams).isEmpty then
    (none, "No Japanese subtitle streams found")
  else if h : (text_jpn streams).isEmpty then
    if !(bitmap_jpn streams).isEmpty then
      (none,
        "Only image-based Japanese subtitles found (e.g., PGS). Cannot convert to .srt without OCR.")
    else (none, "No text-based Japanese subtitles found")
  else
    (some ((sortDesc (pool streams)).head (by
      have hins : ∀ (y : SubStream) (l : List SubStream), insertDesc y l ≠ [] := by
        intro y l
        cases l with
        | nil => simp [insertDesc]
        | cons z zs => simp only [insertDesc]; split <;> simp
      have htext : text_jpn streams ≠ [] := by
        intro hnil
        exact h (by simp [hnil])
      have hpool : pool streams ≠ [] := by
        unfold pool
        split
        · exact htext
        · intro hnil
          simp_all
      cases hp : pool streams with
      | nil => exact absurd hp hpool
      | cons z zs => simp only [sortDesc]; exact hins z (sortDesc zs))).index,
    "Selected Japanese full text subtitles")

/-- Loop body of `find_external_sub` (src/convert.py lines 167-170):
return the first candidate path that exists. -/
def probeLoop (pathExists : Str → Bool) : List Str → Option Str
  | [] => none
  | c :: cs => if pathExists c then some c else probeLoop pathExists cs

/-- Embedding of `find_external_sub` (src/convert.py lines 156-170).
`base` stands for `os.path.splitext(infile)[0]` and `pathExists` for
`os.path.exists`, both external collaborators. -/
def find_external_sub (pathExists : Str → Bool) (base : Str) : Option Str :=
  probeLoop pathExists
    [base ++ ".ja.srt".toList, base ++ ".jpn.srt".toList,
      base ++ ".jp.srt".toList, base ++ ".srt".toList,
      base ++ ".ass".toList, base ++ ".ssa".toList]

/-- One global substitution pass `s/pat//g` of `sed` over a list of fixed
patterns (at most one pattern can match at a given position for the
pattern lists used below): scan left to right, and on a match emit
nothing and resume scanning right after the matched text.  The first
argument counts characters that are still to be skipped as part of an
already matched occurrence. -/
def removePats (pats : List Str) : Nat → Str → Str
  | _, [] => []
  | n + 1, _ :: rest => removePats pats n rest
  | 0, c :: rest =>
    match pats.find? (fun p => !p.isEmpty && p.isPrefixOf (c :: rest)) with
    | some p => removePats pats (p.length - 1) rest
    | none => c :: removePats pats 0 rest

/-- The Unicode left-to-right mark U+200E (the byte sequence
`\xE2\x80\x8E` of the sed script, decoded). -/
def lrmChar : Char := Char.ofNat 0x200E

/-- The nine positioning-override tags `\x7b\an1\x7d` … `\x7b\an9\x7d`
matched by the third sed rule. -/
def anTagPats : List Str :=
  ['1', '2', '3', '4', '5', '6', '7', '8', '9'].map
    (fun d => ['{', '\\', 'a', 'n', d, '}'])

/-- Embedding of the text transformation of `clean_srt` (src/convert.py
lines 206-211): the sed script
`s/&lrm;//g; s/\xE2\x80\x8E//g; s/\x7b\\an[1-9]\x7d//g` applied as three
sequential global substitution passes.  None of the patterns contains a
newline, so applying the rules to the whole text agrees with sed's
line-by-line application. -/
def clean_text (s : Str) : Str :=
  removePats anTagPats 0
    (removePats [[lrmChar]] 0
      (removePats ["&lrm;".toList] 0 s))

/-- Containment of a (raw) pattern in the lower-cased rendering of an
optional title, written from the claims' wording "the title contains …
(case-insensitively)"; an absent title contains nothing. -/
def specTitleContains (title : Option Str) (pat : Str) : Bool :=
  match title with
  | none => false
  | some t => containsSub pat (t.map Char.toLower)

/-- Forced-style title test written from claim C10's wording: check only
the two substrings "forced" and "signs" on the lower-cased title. -/
def titleForcedSpec (title : Option Str) : Bool :=
  specTitleContains title "forced".toList || specTitleContains title "signs".toList

/-- Example stream: Japanese subrip track titled "Full Subtitles". -/
def sFull : SubStream :=
  ⟨2, some "subrip".toList, ⟨0, 1⟩,
    ⟨some "jpn".toList, none, some "Full Subtitles".toList⟩⟩

/-- Example stream: like `sFull` but titled "Forced". -/
def sForcedT : SubStream :=
  ⟨2, some "subrip".toList, ⟨0, 1⟩,
    ⟨some "jpn".toList, none, some "Forced".toList⟩⟩

/-- Example stream: untitled Japanese ass track at index 1. -/
def sIdx1 : SubStream :=
  ⟨1, some "ass".toList, ⟨0, 0⟩, ⟨some "jpn".toList, none, none⟩⟩

/-- Example stream: untitled Japanese ass track at index 4. -/
def sIdx4 : SubStream :=
  ⟨4, some "ass".toList, ⟨0, 0⟩, ⟨some "jpn".toList, none, none⟩⟩

/-- Example stream: untitled Japanese ass track at index 0. -/
def sAss0 : SubStream :=
  ⟨0, some "ass".toList, ⟨0, 0⟩, ⟨some "jpn".toList, none, none⟩⟩

/-- Example stream: untitled Japanese ssa track at index 0 (same score as
`sAss0`). -/
def sSsa0 : SubStream :=
  ⟨0, some "ssa".toList, ⟨0, 0⟩, ⟨some "jpn".toList, none, none⟩⟩

/-- Example stream: English ass track. -/
def sEng : SubStream :=
  ⟨1, some "ass".toList, ⟨0, 0⟩, ⟨some "eng".toList, none, none⟩⟩

/-- Example stream: Japanese bitmap (PGS) track. -/
def sPgs : SubStream :=
  ⟨5, some "hdmv_pgs_subtitle".toList, ⟨0, 0⟩, ⟨some "jpn".toList, none, none⟩⟩

/-- Example stream: plain Japanese subrip track. -/
def sPlain : SubStream :=
  ⟨0, some "subrip".toList, ⟨0, 0⟩, ⟨some "ja".toList, none, none⟩⟩

/-- Example stream: Japanese track with a codec in neither codec set. -/
def sFoo : SubStream :=
  ⟨0, some "foo".toList, ⟨0, 0⟩, ⟨some "jpn".toList, none, none⟩⟩

/-! Helper lemmas shared by the claim theorems. -/

theorem score_stream_def (s : SubStream) :
    score_stream s =
      (100 + title_prefers_full s.tags.title
          + (if s.disposition.default ≠ 0 then (5 : Int) else 0)
          + (if s.disposition.forced ≠ 0 then (0 : Int) else 10),
        -s.index, -s.disposition.forced) := rfl

theorem containsSub_iff (pat s : Str) : containsSub pat s = true ↔ pat <:+: s := by
  induction s with
  | nil =>
    simp only [containsSub, List.isEmpty_iff]
    constructor
    · intro h; simp [h]
    · intro h
      exact List.eq_nil_of_infix_nil h
  | cons c rest ih =>
    simp only [containsSub, Bool.or_eq_true, ih]
    constructor
    · rintro (h | h)
      · exact (List.isPrefixOf_iff_prefix.mp h).isInfix
      · obtain ⟨u, v, rfl⟩ := h
        exact ⟨c :: u, v, by simp⟩
    · rintro ⟨u, v, huv⟩
      cases u with
      | nil =>
        left
        exact List.isPrefixOf_iff_prefix.mpr ⟨v, by simpa using huv⟩
      | cons d u =>
        right
        refine ⟨u, v, ?_⟩
        have := huv
        simp only [List.cons_append, List.cons.injEq] at this
        exact this.2

theorem isInfix_cons_of {l t : Str} (c : Char) (h : l <:+: t) : l <:+: c :: t := by
  obtain ⟨u, v, rfl⟩ := h
  exact ⟨c :: u, v, by simp⟩

theorem tupLt_iff (a b : Int × Int × Int) :
    tupLt a b = true ↔
      a.1 < b.1 ∨ (a.1 = b.1 ∧ (a.2.1 < b.2.1 ∨ (a.2.1 = b.2.1 ∧ a.2.2 < b.2.2))) := by
  simp [tupLt]

theorem head?_sortDesc (x : SubStream) (xs : List SubStream) :
    (sortDesc (x :: xs)).head? = some (firstMax x xs) := by
  induction xs generalizing x with
  | nil => rfl
  | cons y ys ih =>
    have h := ih y
    cases hs : sortDesc (y :: ys) with
    | nil => rw [hs] at h; simp at h
    | cons m rest =>
      rw [hs] at h
      simp only [List.head?_cons, Option.some.injEq] at h
      show (insertDesc x (sortDesc (y :: ys))).head? = _
      rw [hs]
      simp only [insertDesc, firstMax, ← h]
      by_cases hc : tupLt (score_stream x) (score_stream m) = true
      · simp [hc]
      · simp [hc]

theorem pick_selected (streams : List SubStream) (x : SubStream) (xs : List SubStream)
    (hp : pool streams = x :: xs) (ht : text_jpn streams ≠ []) :
    pick_best_jpn_text_sub streams =
      (some (firstMax x xs).index, "Selected Japanese full text subtitles") := by
  have hjpn : jpn_streams streams ≠ [] := by
    intro h; apply ht; simp [text_jpn, h]
  have hstreams : streams ≠ [] := by
    intro h; apply hjpn; simp [jpn_streams, h]
  have h1 : streams.isEmpty = false := by simp [hstreams]
  have h2 : (jpn_streams streams).isEmpty = false := by simp [hjpn]
  have h3 : (text_jpn streams).isEmpty = false := by simp [ht]
  have h9 := head?_sortDesc x xs
  have hne : sortDesc (x :: xs) ≠ [] := by
    intro hnil; rw [hnil] at h9; simp at h9
  have hhead : ∀ hh : sortDesc (x :: xs) ≠ [],
      (sortDesc (x :: xs)).head hh = firstMax x xs := by
    intro hh
    rwa [List.head?_eq_head hh, Option.some.injEq] at h9
  simp only [pick_best_jpn_text_sub, h1, h2, h3, Bool.false_eq_true, if_false,
    dite_false, hp]
  exact congrArg (fun z => (some z.index, _)) (hhead _)

theorem tpf_of_full (T : Option Str)
    (h1 : specTitleContains T ("full".toList) = true)
    (h2 : specTitleContains T ("forced".toList) = false) :
    -2 ≤ title_prefers_full T := by
  cases T with
  | none => simp [specTitleContains] at h1
  | some t =>
    simp only [specTitleContains] at h1 h2
    cases t with
    | nil => simp [containsSub] at h1
    | cons c rest =>
      simp only [title_prefers_full, List.isEmpty_cons, if_false, h1, h2,
        Bool.false_or, if_true]
      split_ifs <;> omega

theorem tpf_of_forced (T : Option Str)
    (h1 : specTitleContains T ("forced".toList) = true)
    (h2 : specTitleContains T ("full".toList) = false) :
    title_prefers_full T ≤ -4 := by
  cases T with
  | none => simp [specTitleContains] at h1
  | some t =>
    simp only [specTitleContains] at h1 h2
    cases t with
    | nil => simp [containsSub] at h1
    | cons c rest =>
      simp only [title_prefers_full, List.isEmpty_cons, if_false, h1, h2,
        Bool.true_or, if_true, Bool.false_eq_true]
      split_ifs <;> omega

theorem removePats_nomatch (pats : List Str) (s : Str)
    (h : ∀ p ∈ pats, ¬ p <:+: s) : removePats pats 0 s = s := by
  induction s with
  | nil => rfl
  | cons c rest ih =>
    have hfind : pats.find? (fun p => !p.isEmpty && p.isPrefixOf (c :: rest)) = none := by
      rw [List.find?_eq_none]
      intro p hp
      simp only [Bool.and_eq_true, Bool.not_eq_true', not_and]
      intro _ hpre
      exact absurd ((List.isPrefixOf_iff_prefix.mp hpre).isInfix) (h p hp)
    simp only [removePats, hfind]
    exact congrArg (c :: ·) (ih fun p hp hinf => h p hp (isInfix_cons_of c hinf))

theorem tupLt_irrefl (u : Int × Int × Int) : tupLt u u = false := by
  cases hc : tupLt u u
  · rfl
  · rw [tupLt_iff] at hc
    omega

theorem tupLt_asymm (u v : Int × Int × Int) (h : tupLt u v = true) :
    tupLt v u = false := by
  cases hc : tupLt v u
  · rfl
  · rw [tupLt_iff] at h hc
    omega

theorem tcf_of_forced (T : Option Str)
    (h : specTitleContains T ("forced".toList) = true) :
    title_contains_forced T = true := by
  cases T with
  | none => simp [specTitleContains] at h
  | some t =>
    simp only [specTitleContains] at h
    cases t with
    | nil => simp [containsSub] at h
    | cons c rest =>
      simp only [title_contains_forced, List.isEmpty_cons, Bool.false_eq_true,
        if_false, List.any_cons, h, Bool.true_or]

theorem tpf_eq_sum (T : Option Str) :
    title_prefers_full T =
      (if specTitleContains T ("full".toList) then (3 : Int) else 0)
      + (if specTitleContains T ("sdh".toList) ||
            specTitleContains T ("hearing".toList) then (1 : Int) else 0)
      + (if specTitleContains T ("forced".toList) ||
            specTitleContains T ("sign".toList) then (-5 : Int) else 0) := by
  cases T with
  | none => simp [title_prefers_full, specTitleContains]
  | some t =>
    cases t with
    | nil => simp [title_prefers_full, specTitleContains, containsSub]
    | cons c rest =>
      simp only [title_prefers_full, specTitleContains, List.isEmpty_cons,
        Bool.false_eq_true, if_false]
      split_ifs <;> omega

/-! Claim theorems. -/

/-- C1, counterexample: on a descriptor list with one Japanese stream whose
codec is in neither codec set, the selection function returns the reason
"No text-based Japanese subtitles found", a fifth classification distinct
from all four taxonomy outcomes (NoStreams, NoLanguageMatch, ImageOnly,
Selected), so the claim "no other outcome or reason classification is
possible" is false. -/
theorem claim1_counterexample :
    pick_best_jpn_text_sub [sFoo] =
      (none, "No text-based Japanese subtitles found") ∧
    "No text-based Japanese subtitles found" ≠ "No subtitle streams found" ∧
    "No text-based Japanese subtitles found" ≠
      "No Japanese subtitle streams found" ∧
    "No text-based Japanese subtitles found" ≠
      "Only image-based Japanese subtitles found (e.g., PGS). Cannot convert to .srt without OCR." ∧
    "No text-based Japanese subtitles found" ≠
      "Selected Japanese full text subtitles" := by
  refine ⟨by decide, by decide, by decide, by decide, by decide⟩

/-- C1 (amended): for every descriptor list the selection function is total
and returns one of exactly five outcomes: Selected (with an index and the
justification string), NoStreams, NoLanguageMatch, ImageOnly, or the
additional NoTextCodec outcome "No text-based Japanese subtitles found"
(language-matched streams exist but none has a text or image subtitle
codec). -/
theorem claim1_total_five_outcomes (streams : List SubStream) :
    (∃ i : Int, pick_best_jpn_text_sub streams =
        (some i, "Selected Japanese full text subtitles")) ∨
    pick_best_jpn_text_sub streams = (none, "No subtitle streams found") ∨
    pick_best_jpn_text_sub streams =
      (none, "No Japanese subtitle streams found") ∨
    pick_best_jpn_text_sub streams =
      (none, "Only image-based Japanese subtitles found (e.g., PGS). Cannot convert to .srt without OCR.") ∨
    pick_best_jpn_text_sub streams =
      (none, "No text-based Japanese subtitles found") := by
  unfold pick_best_jpn_text_sub
  split
  · right; left; rfl
  · split
    · right; right; left; rfl
    · split
      · split
        · right; right; right; left; rfl
        · right; right; right; right; rfl
      · left; exact ⟨_, rfl⟩

/-- C4: the three empty-result cases are classified with distinguishable
reasons: the empty list gives NoStreams; a non-empty list with no
Japanese-tagged descriptor gives NoLanguageMatch regardless of codec; and
a list with at least one language match where all matches carry
image-family codecs gives ImageOnly. -/
theorem claim4_empty_cases (streams : List SubStream) :
    (streams = [] →
      pick_best_jpn_text_sub streams = (none, "No subtitle streams found")) ∧
    (streams ≠ [] → (∀ s ∈ streams, is_japanese s.tags = false) →
      pick_best_jpn_text_sub streams =
        (none, "No Japanese subtitle streams found")) ∧
    ((∃ s ∈ streams, is_japanese s.tags = true) →
      (∀ s ∈ streams, is_japanese s.tags = true →
        BITMAP_SUB_CODECS.contains (codecLower s) = true) →
      pick_best_jpn_text_sub streams =
        (none, "Only image-based Japanese subtitles found (e.g., PGS). Cannot convert to .srt without OCR.")) := by
  refine ⟨?_, ?_, ?_⟩
  · intro h; subst h; rfl
  · intro hne hall
    have hj : jpn_streams streams = [] := by
      simp only [jpn_streams, List.filter_eq_nil_iff]
      intro s hs
      simp [hall s hs]
    simp [pick_best_jpn_text_sub, List.isEmpty_iff, hne, hj]
  · rintro ⟨s0, hs0, hjap⟩ hall
    have hne : streams ≠ [] := by
      intro h; subst h; simp at hs0
    have hdisj : ∀ s : SubStream,
        BITMAP_SUB_CODECS.contains (codecLower s) = true →
        TEXT_SUB_CODECS.contains (codecLower s) = false := by
      intro s hb
      have hmem : codecLower s ∈ BITMAP_SUB_CODECS := by simpa using hb
      simp only [BITMAP_SUB_CODECS, List.mem_cons, List.not_mem_nil,
        or_false] at hmem
      rcases hmem with h | h <;> rw [h] <;> decide
    have htext : text_jpn streams = [] := by
      simp only [text_jpn, List.filter_eq_nil_iff]
      intro s hs
      have hsmem := List.mem_filter.mp hs
      simpa using hdisj s (hall s hsmem.1 hsmem.2)
    have hjmem : s0 ∈ jpn_streams streams := by
      simp [jpn_streams, List.mem_filter, hs0, hjap]
    have hjne : jpn_streams streams ≠ [] := List.ne_nil_of_mem hjmem
    have hbit : bitmap_jpn streams ≠ [] := by
      apply List.ne_nil_of_mem (a := s0)
      simp only [bitmap_jpn, List.mem_filter]
      refine ⟨hjmem, ?_⟩
      simp only [Bool.and_eq_true, Bool.not_eq_true']
      exact ⟨hdisj s0 (hall s0 hs0 hjap), hall s0 hs0 hjap⟩
    simp [pick_best_jpn_text_sub, List.isEmpty_iff, hne, hjne, htext, hbit]

/-- C4, witness: the empty list, a one-element English-tagged list, and a
one-element Japanese PGS list realize the three hypotheses and reasons. -/
theorem claim4_witness :
    pick_best_jpn_text_sub [] = (none, "No subtitle streams found") ∧
    pick_best_jpn_text_sub [sEng] =
      (none, "No Japanese subtitle streams found") ∧
    pick_best_jpn_text_sub [sPgs] =
      (none, "Only image-based Japanese subtitles found (e.g., PGS). Cannot convert to .srt without OCR.") := by
  refine ⟨(claim4_empty_cases []).1 rfl, ?_, ?_⟩
  · refine (claim4_empty_cases [sEng]).2.1 (by decide) ?_
    intro s hs
    rw [List.mem_singleton] at hs
    subst hs
    decide
  · refine (claim4_empty_cases [sPgs]).2.2 ⟨sPgs, by decide, by decide⟩ ?_
    intro s hs
    rw [List.mem_singleton] at hs
    subst hs
    intro _
    decide

/-- C9: the filesystem fallback probes the six sibling names derived from
the base name in exactly the stated priority order and returns the first
existing one, `none` when no candidate exists, with no scoring. -/
theorem claim9_external_priority (pe : Str → Bool) (base : Str) :
    find_external_sub pe base =
      (if pe (base ++ ".ja.srt".toList) then some (base ++ ".ja.srt".toList)
       else if pe (base ++ ".jpn.srt".toList) then
         some (base ++ ".jpn.srt".toList)
       else if pe (base ++ ".jp.srt".toList) then
         some (base ++ ".jp.srt".toList)
       else if pe (base ++ ".srt".toList) then some (base ++ ".srt".toList)
       else if pe (base ++ ".ass".toList) then some (base ++ ".ass".toList)
       else if pe (base ++ ".ssa".toList) then some (base ++ ".ssa".toList)
       else none) := by
  rfl

/-- C10: the forced-style title test is equivalent to checking only the two
substrings "forced" and "signs" on the lower-cased title (the entries
"songs & signs" and "songs/signs" are redundant because each contains
"signs"); and a title containing only the singular "sign", such as
"Sign", is not treated as forced-style even though the scorer penalizes
it by -5. -/
theorem claim10_forced_test_redundant :
    (∀ title : Option Str, title_contains_forced title = titleForcedSpec title) ∧
    title_contains_forced (some "Sign".toList) = false ∧
    title_prefers_full (some "Sign".toList) = -5 := by
  refine ⟨?_, by decide, by decide⟩
  intro title
  cases title with
  | none => rfl
  | some t =>
    cases t with
    | nil => rfl
    | cons c rest =>
      simp only [title_contains_forced, titleForcedSpec, specTitleContains,
        List.isEmpty_cons, Bool.false_eq_true, if_false, List.any_cons,
        List.any_nil, Bool.or_false]
      cases hf : containsSub "forced".toList ((c :: rest).map Char.toLower) <;>
        cases hs : containsSub "signs".toList ((c :: rest).map Char.toLower) <;>
          simp only [Bool.false_or, Bool.true_or, Bool.or_false, Bool.or_true]
      · have hss1 : containsSub "songs & signs".toList
            ((c :: rest).map Char.toLower) = false := by
          cases hq : containsSub "songs & signs".toList
              ((c :: rest).map Char.toLower)
          · rfl
          · exfalso
            have hinf := (containsSub_iff _ _).mp hq
            have : ("signs".toList : Str) <:+:
                ((c :: rest).map Char.toLower) :=
              List.IsInfix.trans (by decide) hinf
            rw [(containsSub_iff _ _).mpr this] at hs
            cases hs
        have hss2 : containsSub "songs/signs".toList
            ((c :: rest).map Char.toLower) = false := by
          cases hq : containsSub "songs/signs".toList
              ((c :: rest).map Char.toLower)
          · rfl
          · exfalso
            have hinf := (containsSub_iff _ _).mp hq
            have : ("signs".toList : Str) <:+:
                ((c :: rest).map Char.toLower) :=
              List.IsInfix.trans (by decide) hinf
            rw [(containsSub_iff _ _).mpr this] at hs
            cases hs
        simp only [hss1, hss2, Bool.or_self]

/-- C2: the score of every candidate is the 3-tuple
(base, -index, -forced) compared lexicographically descending, with
base = 100 + titleBonus + defaultBonus + (10 if disposition.forced is
false else 0), defaultBonus = 5 if disposition.default is true else 0,
and titleBonus = +3 for "full", +1 for "sdh" or "hearing", -5 for
"forced" or "sign", checked case-insensitively and added independently. -/
theorem claim2_score_formula (s : SubStream) :
    score_stream s =
      (100
        + ((if specTitleContains s.tags.title ("full".toList) then (3 : Int)
            else 0)
          + (if specTitleContains s.tags.title ("sdh".toList) ||
                specTitleContains s.tags.title ("hearing".toList) then (1 : Int)
             else 0)
          + (if specTitleContains s.tags.title ("forced".toList) ||
                specTitleContains s.tags.title ("sign".toList) then (-5 : Int)
             else 0))
        + (if s.disposition.default ≠ 0 then (5 : Int) else 0)
        + (if s.disposition.forced = 0 then (10 : Int) else 0),
      -s.index, -s.disposition.forced) := by
  rw [score_stream_def, tpf_eq_sum]
  exact congrArg (fun z => ((z : Int), -s.index, -s.disposition.forced))
    (by split_ifs <;> omega)

/-- C3: whenever the language-matched text-codec candidate list is
non-empty, the ranking pool is the forced-free subset when that subset is
non-empty and the full candidate list otherwise, and ranking always
returns a selected index with the success justification. -/
theorem claim3_pool_degradation (streams : List SubStream)
    (h : text_jpn streams ≠ []) :
    (pool streams =
      if non_forced_text streams = [] then text_jpn streams
      else non_forced_text streams) ∧
    ∃ i : Int, pick_best_jpn_text_sub streams =
      (some i, "Selected Japanese full text subtitles") := by
  constructor
  · by_cases hn : non_forced_text streams = []
    · simp [pool, hn]
    · simp [pool, List.isEmpty_iff, hn]
  · have hpool : pool streams ≠ [] := by
      by_cases hn : (non_forced_text streams).isEmpty
      · simpa [pool, hn] using h
      · simp only [pool, hn, Bool.false_eq_true, if_false]
        intro hnil
        rw [hnil] at hn
        simp at hn
    cases hp : pool streams with
    | nil => exact absurd hp hpool
    | cons x xs => exact ⟨(firstMax x xs).index, pick_selected streams x xs hp h⟩

/-- C3, witness: a single plain Japanese subrip stream gives a non-empty
text-candidate list and a selected result. -/
theorem claim3_witness :
    text_jpn [sPlain] ≠ [] ∧
    (pool [sPlain] =
      if non_forced_text [sPlain] = [] then text_jpn [sPlain]
      else non_forced_text [sPlain]) ∧
    ∃ i : Int, pick_best_jpn_text_sub [sPlain] =
      (some i, "Selected Japanese full text subtitles") :=
  ⟨by decide, claim3_pool_degradation [sPlain] (by decide)⟩

/-- C6: for two language-matched text candidates with identical disposition
flags and no title text, the one with the lower native index scores
strictly higher and is selected, in either input order. -/
theorem claim6_index_tiebreak (a b : SubStream)
    (hja : is_japanese a.tags = true) (hjb : is_japanese b.tags = true)
    (hca : TEXT_SUB_CODECS.contains (codecLower a) = true)
    (hcb : TEXT_SUB_CODECS.contains (codecLower b) = true)
    (hta : a.tags.title = none) (htb : b.tags.title = none)
    (hd : a.disposition = b.disposition)
    (hi : a.index < b.index) :
    tupLt (score_stream b) (score_stream a) = true ∧
    pick_best_jpn_text_sub [a, b] =
      (some a.index, "Selected Japanese full text subtitles") ∧
    pick_best_jpn_text_sub [b, a] =
      (some a.index, "Selected Japanese full text subtitles") := by
  have hlt : tupLt (score_stream b) (score_stream a) = true := by
    rw [tupLt_iff, score_stream_def, score_stream_def, hta, htb, ← hd]
    dsimp only
    right
    exact ⟨rfl, Or.inl (by omega)⟩
  have hltF : tupLt (score_stream a) (score_stream b) = false :=
    tupLt_asymm _ _ hlt
  have htcfa : title_contains_forced a.tags.title = false := by rw [hta]; rfl
  have htcfb : title_contains_forced b.tags.title = false := by rw [htb]; rfl
  have hma : codecLower a ∈ TEXT_SUB_CODECS := by simpa using hca
  have hmb : codecLower b ∈ TEXT_SUB_CODECS := by simpa using hcb
  have htj : text_jpn [a, b] = [a, b] := by
    simp [text_jpn, jpn_streams, List.filter_cons, hja, hjb, hma, hmb]
  have htjba : text_jpn [b, a] = [b, a] := by
    simp [text_jpn, jpn_streams, List.filter_cons, hja, hjb, hma, hmb]
  have hpool : pool [a, b] = [a, b] := by
    by_cases hf : a.disposition.forced = 0
    · have hnf : non_forced_text [a, b] = [a, b] := by
        simp [non_forced_text, htj, List.filter_cons, ← hd, hf, htcfa, htcfb]
      simp [pool, hnf]
    · have hnf : non_forced_text [a, b] = [] := by
        simp [non_forced_text, htj, List.filter_cons, ← hd, hf]
      simp [pool, hnf, htj]
  have hpoolba : pool [b, a] = [b, a] := by
    by_cases hf : a.disposition.forced = 0
    · have hnf : non_forced_text [b, a] = [b, a] := by
        simp [non_forced_text, htjba, List.filter_cons, ← hd, hf, htcfa, htcfb]
      simp [pool, hnf]
    · have hnf : non_forced_text [b, a] = [] := by
        simp [non_forced_text, htjba, List.filter_cons, ← hd, hf]
      simp [pool, hnf, htjba]
  refine ⟨hlt, ?_, ?_⟩
  · have hpk := pick_selected [a, b] a [b] hpool (by rw [htj]; simp)
    have hfm : firstMax a [b] = a := by simp [firstMax, hltF]
    rw [hpk, hfm]
  · have hpk := pick_selected [b, a] b [a] hpoolba (by rw [htjba]; simp)
    have hfm : firstMax b [a] = a := by simp [firstMax, hlt]
    rw [hpk, hfm]

/-- C6, witness: the untitled Japanese ass tracks at indices 1 and 4
instantiate the tie-break, selecting index 1 in either order. -/
theorem claim6_witness :
    tupLt (score_stream sIdx4) (score_stream sIdx1) = true ∧
    pick_best_jpn_text_sub [sIdx1, sIdx4] =
      (some sIdx1.index, "Selected Japanese full text subtitles") ∧
    pick_best_jpn_text_sub [sIdx4, sIdx1] =
      (some sIdx1.index, "Selected Japanese full text subtitles") :=
  claim6_index_tiebreak sIdx1 sIdx4 (by decide) (by decide) (by decide)
    (by decide) (by decide) (by decide) (by decide) (by decide)

/-- C5: for two language-matched text candidates identical except for their
titles, where one title contains "full" (and not "forced") and the other
contains "forced" (and not "full"), the "full"-titled candidate scores
strictly higher and is selected, in either input order. -/
theorem claim5_full_over_forced (a b : SubStream)
    (hja : is_japanese a.tags = true) (hjb : is_japanese b.tags = true)
    (hca : TEXT_SUB_CODECS.contains (codecLower a) = true)
    (hcb : TEXT_SUB_CODECS.contains (codecLower b) = true)
    (hidx : a.index = b.index) (hd : a.disposition = b.disposition)
    (haf : specTitleContains a.tags.title ("full".toList) = true)
    (hafn : specTitleContains a.tags.title ("forced".toList) = false)
    (hbf : specTitleContains b.tags.title ("forced".toList) = true)
    (hbfn : specTitleContains b.tags.title ("full".toList) = false) :
    tupLt (score_stream b) (score_stream a) = true ∧
    pick_best_jpn_text_sub [a, b] =
      (some a.index, "Selected Japanese full text subtitles") ∧
    pick_best_jpn_text_sub [b, a] =
      (some a.index, "Selected Japanese full text subtitles") := by
  have h2 : -2 ≤ title_prefers_full a.tags.title := tpf_of_full _ haf hafn
  have h3 : title_prefers_full b.tags.title ≤ -4 := tpf_of_forced _ hbf hbfn
  have hlt : tupLt (score_stream b) (score_stream a) = true := by
    rw [tupLt_iff, score_stream_def, score_stream_def, ← hd]
    dsimp only
    left
    split_ifs <;> omega
  have hltF : tupLt (score_stream a) (score_stream b) = false :=
    tupLt_asymm _ _ hlt
  have htcfb : title_contains_forced b.tags.title = true := tcf_of_forced _ hbf
  have hma : codecLower a ∈ TEXT_SUB_CODECS := by simpa using hca
  have hmb : codecLower b ∈ TEXT_SUB_CODECS := by simpa using hcb
  have htj : text_jpn [a, b] = [a, b] := by
    simp [text_jpn, jpn_streams, List.filter_cons, hja, hjb, hma, hmb]
  have htjba : text_jpn [b, a] = [b, a] := by
    simp [text_jpn, jpn_streams, List.filter_cons, hja, hjb, hma, hmb]
  have hfm : firstMax a [b] = a := by simp [firstMax, hltF]
  have hfmba : firstMax b [a] = a := by simp [firstMax, hlt]
  have hpools : (pool [a, b] = [a, b] ∨ pool [a, b] = [a]) ∧
      (pool [b, a] = [b, a] ∨ pool [b, a] = [a]) := by
    by_cases hf : a.disposition.forced = 0
    · by_cases hat : title_contains_forced a.tags.title = true
      · have hnf : non_forced_text [a, b] = [] := by
          simp [non_forced_text, htj, List.filter_cons, ← hd, hf, hat, htcfb]
        have hnfba : non_forced_text [b, a] = [] := by
          simp [non_forced_text, htjba, List.filter_cons, ← hd, hf, hat, htcfb]
        exact ⟨Or.inl (by simp [pool, hnf, htj]),
          Or.inl (by simp [pool, hnfba, htjba])⟩
      · have hat2 : title_contains_forced a.tags.title = false := by
          simpa using hat
        have hnf : non_forced_text [a, b] = [a] := by
          simp [non_forced_text, htj, List.filter_cons, ← hd, hf, hat2, htcfb]
        have hnfba : non_forced_text [b, a] = [a] := by
          simp [non_forced_text, htjba, List.filter_cons, ← hd, hf, hat2, htcfb]
        exact ⟨Or.inr (by simp [pool, hnf]), Or.inr (by simp [pool, hnfba])⟩
    · have hnf : non_forced_text [a, b] = [] := by
        simp [non_forced_text, htj, List.filter_cons, ← hd, hf]
      have hnfba : non_forced_text [b, a] = [] := by
        simp [non_forced_text, htjba, List.filter_cons, ← hd, hf]
      exact ⟨Or.inl (by simp [pool, hnf, htj]),
        Or.inl (by simp [pool, hnfba, htjba])⟩
  refine ⟨hlt, ?_, ?_⟩
  · rcases hpools.1 with hp | hp
    · rw [pick_selected [a, b] a [b] hp (by rw [htj]; simp), hfm]
    · rw [pick_selected [a, b] a [] hp (by rw [htj]; simp)]
      simp [firstMax]
  · rcases hpools.2 with hp | hp
    · rw [pick_selected [b, a] b [a] hp (by rw [htjba]; simp), hfmba]
    · rw [pick_selected [b, a] a [] hp (by rw [htjba]; simp)]
      simp [firstMax, hidx]

/-- C5, witness: the Japanese subrip tracks titled "Full Subtitles" and
"Forced" at the same index instantiate the monotonicity, the full-titled
track being selected in either order. -/
theorem claim5_witness :
    tupLt (score_stream sForcedT) (score_stream sFull) = true ∧
    pick_best_jpn_text_sub [sFull, sForcedT] =
      (some sFull.index, "Selected Japanese full text subtitles") ∧
    pick_best_jpn_text_sub [sForcedT, sFull] =
      (some sFull.index, "Selected Japanese full text subtitles") :=
  claim5_full_over_forced sFull sForcedT (by decide) (by decide) (by decide)
    (by decide) (by decide) (by decide) (by decide) (by decide) (by decide)
    (by decide)

/-- C7: selection is deterministic (repeated invocations on the same list
give the same result), the head of the stable descending sort of any
non-empty pool is the first element of the pool attaining the maximal
score, and a score tie between two candidates is resolved in favor of the
one earlier in the original list order. -/
theorem claim7_deterministic_stable (streams : List SubStream)
    (x : SubStream) (xs : List SubStream) (a b : SubStream) :
    pick_best_jpn_text_sub streams = pick_best_jpn_text_sub streams ∧
    (sortDesc (x :: xs)).head? = some (firstMax x xs) ∧
    (score_stream a = score_stream b →
      (sortDesc [a, b]).head? = some a) := by
  refine ⟨rfl, head?_sortDesc x xs, ?_⟩
  intro hsc
  rw [head?_sortDesc]
  have hlt : tupLt (score_stream a) (score_stream b) = false := by
    rw [hsc]
    exact tupLt_irrefl _
  simp [firstMax, hlt]

/-- C7, witness: the equal-scoring streams `sAss0` and `sSsa0` tie and the
earlier one is selected. -/
theorem claim7_witness :
    score_stream sAss0 = score_stream sSsa0 ∧
    (sortDesc [sAss0, sSsa0]).head? = some sAss0 :=
  ⟨by decide,
    (claim7_deterministic_stable [] sAss0 [] sAss0 sSsa0).2.2 (by decide)⟩

/-- C8, counterexample: the cleaning rules are not idempotent; on the input
"&l&lrm;rm;" one application leaves "&lrm;" (the removal of the inner
entity splices a new occurrence together) and a second application
removes it. -/
theorem claim8_counterexample :
    clean_text (clean_text ("&l&lrm;rm;".toList)) ≠
      clean_text ("&l&lrm;rm;".toList) := by decide

/-- C8 (amended): the cleaning pass is idempotent on every input whose
cleaned form contains no occurrence of any pattern — no "&lrm;" entity,
no left-to-right-mark character, and no positioning tag — but not on all
inputs, since a removal can splice a new pattern occurrence together. -/
theorem claim8_idempotent_when_clean (s : Str)
    (h1 : ¬ ("&lrm;".toList <:+: clean_text s))
    (h2 : ¬ ([lrmChar] <:+: clean_text s))
    (h3 : ∀ p ∈ anTagPats, ¬ p <:+: clean_text s) :
    clean_text (clean_text s) = clean_text s := by
  show removePats anTagPats 0
      (removePats [[lrmChar]] 0
        (removePats ["&lrm;".toList] 0 (clean_text s))) = clean_text s
  rw [removePats_nomatch ["&lrm;".toList] (clean_text s) (by
    intro p hp
    rw [List.mem_singleton] at hp
    subst hp
    exact h1)]
  rw [removePats_nomatch [[lrmChar]] (clean_text s) (by
    intro p hp
    rw [List.mem_singleton] at hp
    subst hp
    exact h2)]
  exact removePats_nomatch anTagPats (clean_text s) h3

/-- C8, witness: a pattern-free input such as "Hello" is cleaned
idempotently. -/
theorem claim8_witness :
    clean_text (clean_text ("Hello".toList)) = clean_text ("Hello".toList) :=
  claim8_idempotent_when_clean ("Hello".toList) (by decide) (by decide)
    (by decide)
